import Mathlib

/-!
Verification development for the creator-data merge/analysis subsystem
(`src/utils.py`, `src/agent.py`, `src/models.py`).

The Python values flowing through `merge_content_creator_info` are JSON-like
structures: dictionaries (insertion-ordered, unique string keys), lists and
scalars.  We embed them as the inductive type `Val`; a dictionary is its
ordered entry list.  Scalars are integers and strings, which covers every
scalar the claims touch.
-/

set_option autoImplicit false

namespace YTAgent

/-- JSON-like Python value: scalar, list, or insertion-ordered dict. -/
inductive Val where
  | vint (n : Int)
  | vstr (s : String)
  | vlist (l : List Val)
  | vdict (entries : List (String × Val))
  deriving Repr

/-- `key in base` for a Python dict given as its entry list. -/
def hasKey (es : List (String × Val)) (k : String) : Bool :=
  es.any (fun e => e.1 = k)

/-- `base[key]` lookup (first entry with the key; Python dicts keep keys unique). -/
def getKey (es : List (String × Val)) (k : String) : Option Val :=
  (es.find? (fun e => e.1 = k)).map (fun e => e.2)

/-- `base[key] = v` for a key already present: the entry keeps its position. -/
def setKey (es : List (String × Val)) (k : String) (v : Val) : List (String × Val) :=
  es.map (fun e => if e.1 = k then (k, v) else e)

mutual

/-- `recursive_merge` from `src/utils.py` (lines 88-98): dict/dict merges
key-by-key, list/list concatenates `base ++ update`, anything else returns
`update`. -/
def recursive_merge : Val → Val → Val
  | Val.vdict b, Val.vdict u => Val.vdict (mergeInto b u)
  | Val.vlist b, Val.vlist u => Val.vlist (b ++ u)
  | _, u => u

/-- The `for key, val in update.items()` loop of `recursive_merge`: each update
entry is written into `base`, recursing when the key is already present. -/
def mergeInto (b : List (String × Val)) : List (String × Val) → List (String × Val)
  | [] => b
  | (k, v) :: rest =>
    match getKey b k with
    | some bv => mergeInto (setKey b k (recursive_merge bv v)) rest
    | none => mergeInto (b ++ [(k, v)]) rest

end

/-- `merge_content_creator_info` from `src/utils.py` (lines 68-100) on two
dictionaries: `merged = source1.copy()` then `recursive_merge(merged, source2)`.
On dict inputs the result is the merged dict, whose entries we return. -/
def merge_content_creator_info (source1 source2 : List (String × Val)) :
    List (String × Val) :=
  mergeInto source1 source2

/-- The keys of a dict, in order. -/
def keysOf (es : List (String × Val)) : List String :=
  es.map Prod.fst

/-!
## Analysis engine (`src/agent.py`)

`_analyze_business` and `_analyze_timelines` read raw creator-data dicts.
We embed the fields those functions actually access: `businesses` entries are
read at keys `is_active`, `revenue`, `status` (the last only by the spec's
claim); `life_events` entries at key `year`.  A missing key is `none`;
`d.get(k, default)` becomes `Option.getD`.  Python's `/` on these inputs is
exact rational division that raises `ZeroDivisionError` on a zero divisor, so
fallible arithmetic lives in `Except String`.
-/

/-- One entry of the raw `businesses` list, restricted to the keys the
analysis reads. -/
structure BusinessEntry where
  is_active : Option Bool
  revenue : Option Rat
  status : Option String
  deriving Repr, DecidableEq

/-- One entry of the raw `life_events` list, restricted to the key the
analysis reads. -/
structure LifeEventEntry where
  year : Option Int
  deriving Repr, DecidableEq

/-- The raw creator-data dict as seen by the analysis: each list field is
`none` when the key is absent (`data.get(..., [])` then yields `[]`). -/
structure CreatorData where
  life_events : Option (List LifeEventEntry)
  businesses : Option (List BusinessEntry)
  deriving Repr, DecidableEq

/-- Python `a / b`: `ZeroDivisionError` when `b = 0`, else exact division. -/
def pyDiv (a b : Rat) : Except String Rat :=
  if b = 0 then Except.error "ZeroDivisionError" else Except.ok (a / b)

/-- Result dict of `_analyze_business`. -/
structure BusinessAnalysis where
  total_businesses : Nat
  active_businesses : Nat
  average_revenue : Rat
  deriving Repr, DecidableEq

/-- `_analyze_business` from `src/agent.py` (lines 87-94):
`total_businesses = len(businesses)`;
`active_businesses = sum(1 for b in businesses if b.get("is_active", False))`;
`average_revenue = sum(b.get("revenue", 0) for b in businesses) / len(businesses)
if businesses else 0`. -/
def analyze_business (data : CreatorData) : Except String BusinessAnalysis :=
  let businesses := data.businesses.getD []
  let avgE : Except String Rat :=
    if businesses.isEmpty then Except.ok 0
    else pyDiv ((businesses.map (fun b => b.revenue.getD 0)).sum)
      (businesses.length : Rat)
  avgE.map (fun avg =>
    { total_businesses := businesses.length
      active_businesses :=
        ((businesses.filter (fun b => b.is_active.getD false)).map
          (fun _ => (1 : Nat))).sum
      average_revenue := avg })

/-- Result dict of `_analyze_timelines`: `career_start` is `None` when there
are no events. -/
structure TimelineAnalysis where
  career_start : Option Int
  milestone_frequency : Rat
  deriving Repr, DecidableEq

/-- Stable insertion into a key-sorted list: the new element goes before the
first strictly greater key, hence after earlier elements with an equal key. -/
def insertByKey {α : Type} (key : α → Int) (x : α) : List α → List α
  | [] => [x]
  | y :: ys => if key x ≤ key y then x :: y :: ys else y :: insertByKey key x ys

/-- Stable sort by an integer key.  Python's `sorted` is a stable sort, and a
stable sort's output is determined by the key, so this insertion sort computes
the same list as `sorted(events, key=...)`. -/
def sortByKey {α : Type} (key : α → Int) : List α → List α
  | [] => []
  | x :: xs => insertByKey key x (sortByKey key xs)

/-- `_analyze_timelines` from `src/agent.py` (lines 104-111):
`events = sorted(data.get("life_events", []), key=lambda x: x.get("year", 0))`;
`career_start = events[0]["year"] if events else None` — a plain subscript,
which raises `KeyError` when the first sorted event has no `"year"` key;
`milestone_frequency = len(events) / (datetime.now().year - events[0]["year"])
if events else 0`.  `datetime.now().year` is the parameter `currentYear`. -/
def analyze_timelines (currentYear : Int) (data : CreatorData) :
    Except String TimelineAnalysis :=
  let events := sortByKey (fun x => x.year.getD 0) (data.life_events.getD [])
  match events with
  | [] => Except.ok { career_start := none, milestone_frequency := 0 }
  | e0 :: _ =>
    match e0.year with
    | none => Except.error "KeyError: year"
    | some y0 =>
      (pyDiv (events.length : Rat) ((currentYear : Rat) - (y0 : Rat))).map
        (fun freq => { career_start := some y0, milestone_frequency := freq })

/-!
## Schema layer (`src/models.py`)

`ChallengeObject` is a pydantic model; constructing one runs the field
constraints of lines 32-35 and raises `ValidationError` naming the offending
field when one fails.  `datetime.now().year` is again the parameter
`currentYear`.  Python `len` on a `str` counts code points, as does
`String.length`.
-/

/-- A validated `ChallengeObject` (`src/models.py` lines 22-35). -/
structure ChallengeObject where
  description : String
  year : Int
  learnings : String
  duration : Option Int
  deriving Repr, DecidableEq

/-- Construction of `ChallengeObject`: each field constraint of
`src/models.py` lines 32-35 in declaration order —
`description`: 10-200 chars; `year`: `ge=2005, le=datetime.now().year`;
`learnings`: 10-500 chars; `duration`: optional, 1-120. -/
def mkChallengeObject (currentYear : Int) (description : String) (year : Int)
    (learnings : String) (duration : Option Int) : Except String ChallengeObject :=
  if ¬ (10 ≤ description.length ∧ description.length ≤ 200) then
    Except.error "ValidationError: description"
  else if ¬ (2005 ≤ year ∧ year ≤ currentYear) then
    Except.error "ValidationError: year"
  else if ¬ (10 ≤ learnings.length ∧ learnings.length ≤ 500) then
    Except.error "ValidationError: learnings"
  else
    match duration with
    | none => Except.ok ⟨description, year, learnings, none⟩
    | some d =>
      if ¬ (1 ≤ d ∧ d ≤ 120) then Except.error "ValidationError: duration"
      else Except.ok ⟨description, year, learnings, some d⟩

/-!
## Heap model of the merge (for the mutation claim)

`recursive_merge` assigns into `base` (`base[key] = ...`), and
`merge_content_creator_info` only takes a *shallow* copy of `source1`
(`merged = source1.copy()`), so nested dict objects of `source1` stay shared
with `merged`.  To observe that, we re-embed the merge with Python dicts as
heap objects: an `HVal` dict is an address into a store of entry lists.
Lists are never mutated by the merge (`base + update` builds a new list), so
they stay immutable values.  `fuel` bounds the recursion depth; every run in
this file returns within the supplied fuel.
-/

/-- Heap value: scalar, (immutable) list, or reference to a dict object. -/
inductive HVal where
  | hint (n : Int)
  | hlist (l : List HVal)
  | href (a : Nat)
  deriving Repr

/-- The store: dict address to insertion-ordered entry list. -/
def Heap := List (Nat × List (String × HVal))

/-- The dict object at address `a`. -/
def heapGet (h : Heap) (a : Nat) : Option (List (String × HVal)) :=
  (List.find? (fun e => e.1 = a) h).map (fun e => e.2)

/-- Replace the dict object at address `a`. -/
def heapSet (h : Heap) (a : Nat) (es : List (String × HVal)) : Heap :=
  List.map (fun e => if e.1 = a then (a, es) else e) h

/-- An address not yet used by the store. -/
def freshAddr (h : Heap) : Nat :=
  (List.map (fun e => e.1 + 1) h).foldr max 0

/-- `d[key] = v` on an entry list: an existing key keeps its position, a new
key is appended (Python dict insertion order). -/
def setEntry (es : List (String × HVal)) (k : String) (v : HVal) :
    List (String × HVal) :=
  if es.any (fun e => e.1 = k) then
    es.map (fun e => if e.1 = k then (k, v) else e)
  else es ++ [(k, v)]

mutual

/-- `recursive_merge` on the heap.  The dict/dict case walks `update`'s entry
list (snapshotted at entry, which agrees with Python whenever `base` and
`update` are distinct objects) and assigns into the `base` object in place,
returning `base`'s reference. -/
def recursiveMergeH : Nat → HVal → HVal → Heap → Option (HVal × Heap)
  | 0, _, _, _ => none
  | fuel + 1, base, update, h =>
    match base, update with
    | HVal.href a, HVal.href b =>
      match heapGet h a, heapGet h b with
      | some _, some ue =>
        (mergeEntriesH fuel a ue h).map (fun h2 => (HVal.href a, h2))
      | _, _ => none
    | HVal.hlist bs, HVal.hlist us => some (HVal.hlist (bs ++ us), h)
    | _, u => some (u, h)

/-- The `for key, val in update.items()` loop, mutating the dict at address
`a`: `base[key] = recursive_merge(base[key], val)` when the key is present,
`base[key] = val` otherwise. -/
def mergeEntriesH : Nat → Nat → List (String × HVal) → Heap → Option Heap
  | _, _, [], h => some h
  | 0, _, _ :: _, _ => none
  | fuel + 1, a, (k, v) :: rest, h =>
    match heapGet h a with
    | none => none
    | some es =>
      match (List.find? (fun e => e.1 = k) es).map (fun e => e.2) with
      | some bv =>
        match recursiveMergeH fuel bv v h with
        | none => none
        | some (mv, h2) =>
          match heapGet h2 a with
          | none => none
          | some es2 => mergeEntriesH fuel a rest (heapSet h2 a (setEntry es2 k mv))
      | none => mergeEntriesH fuel a rest (heapSet h a (setEntry es k v))

end

/-- `merge_content_creator_info` on the heap (`src/utils.py` lines 68-100):
`merged = source1.copy()` allocates a fresh dict with the same entry list
(shallow — nested references are shared), then `recursive_merge(merged,
source2)` runs on it. -/
def mergeHeap (fuel : Nat) (source1 source2 : Nat) (h : Heap) :
    Option (HVal × Heap) :=
  match heapGet h source1 with
  | none => none
  | some es =>
    let a := freshAddr h
    recursiveMergeH fuel (HVal.href a) (HVal.href source2) ((a, es) :: h)

/-- A concrete store for the mutation experiment:
`source1` is the dict at address 0, namely `{"a": {"b": 1}}` (its nested dict
lives at address 1), and `source2` is the dict at address 2, namely
`{"a": {"c": 2}}` (nested dict at address 3). -/
def exampleHeap : Heap :=
  [(0, [("a", HVal.href 1)]), (1, [("b", HVal.hint 1)]),
   (2, [("a", HVal.href 3)]), (3, [("c", HVal.hint 2)])]

/-!
## Lemmas about the dict merge
-/

theorem getKey_of_not_has (es : List (String × Val)) (k : String)
    (h : hasKey es k = false) : getKey es k = none := by
  induction es with
  | nil => rfl
  | cons e rest ih =>
    simp only [hasKey, List.any_cons, Bool.or_eq_false_iff] at h ih
    simp only [getKey, List.find?_cons] at ih ⊢
    rcases h with ⟨h1, h2⟩
    rw [h1]
    exact ih h2

theorem hasKey_append (a b : List (String × Val)) (k : String) :
    hasKey (a ++ b) k = (hasKey a k || hasKey b k) := by
  simp [hasKey, List.any_append]

/-- When every key of `update` is fresh for `base` and `update`'s keys are
distinct (as they are for a Python dict), the merge loop just appends the
update entries in order. -/
theorem mergeInto_of_fresh (u : List (String × Val)) (b : List (String × Val))
    (hnd : (keysOf u).Nodup) (hdisj : ∀ k ∈ keysOf u, hasKey b k = false) :
    mergeInto b u = b ++ u := by
  induction u generalizing b with
  | nil => simp [mergeInto]
  | cons kv rest ih =>
    obtain ⟨k, v⟩ := kv
    simp only [keysOf, List.map_cons, List.nodup_cons] at hnd
    have hk : hasKey b k = false := hdisj k (by simp [keysOf])
    rw [mergeInto, getKey_of_not_has _ _ hk]
    rw [ih (b ++ [(k, v)]) hnd.2]
    · simp
    · intro k2 hk2
      rw [hasKey_append]
      have hne : k2 ≠ k := by
        rintro rfl
        exact hnd.1 hk2
      have hb : hasKey b k2 = false := hdisj k2
        (by simp only [keysOf, List.map_cons, List.mem_cons]; exact Or.inr hk2)
      rw [hb, Bool.false_or]
      simp only [hasKey, List.any_cons, List.any_nil, Bool.or_false]
      exact decide_eq_false fun h => hne h.symm

theorem hasKey_eq_false_iff (es : List (String × Val)) (k : String) :
    hasKey es k = false ↔ k ∉ keysOf es := by
  simp only [hasKey, keysOf, List.any_eq_false, decide_eq_true_eq,
    List.mem_map]
  constructor
  · rintro h ⟨e, he, rfl⟩
    exact h e he rfl
  · intro h e he hk
    exact h ⟨e, he, hk⟩

/-- C4: the empty dict is a left and a right identity for
`merge_content_creator_info` (up to the Python-dict invariant that `X`'s keys
are distinct, which the left identity uses: the loop writes each update entry
into a dict that never already has its key). -/
theorem merge_empty_identity (X : List (String × Val))
    (hnd : (keysOf X).Nodup) :
    merge_content_creator_info [] X = X ∧
      merge_content_creator_info X [] = X := by
  constructor
  · have := mergeInto_of_fresh X [] hnd (fun k _ => rfl)
    simpa [merge_content_creator_info] using this
  · rfl

/-- Witness for C4 at a concrete two-key dict. -/
theorem merge_empty_identity_witness :
    merge_content_creator_info [] [("a", Val.vint 1), ("b", Val.vstr "s")]
        = [("a", Val.vint 1), ("b", Val.vstr "s")] ∧
      merge_content_creator_info [("a", Val.vint 1), ("b", Val.vstr "s")] []
        = [("a", Val.vint 1), ("b", Val.vstr "s")] :=
  merge_empty_identity [("a", Val.vint 1), ("b", Val.vstr "s")] (by decide)

/-- C6: for dicts with pairwise fresh keys (each key of `b` absent from `a`,
each key of `c` absent from `a` and `b`; each dict's own keys distinct),
iterated pairwise merge is associative. -/
theorem merge_assoc_disjoint (a b c : List (String × Val))
    (hb : (keysOf b).Nodup) (hc : (keysOf c).Nodup)
    (hab : ∀ k ∈ keysOf b, hasKey a k = false)
    (hac : ∀ k ∈ keysOf c, hasKey a k = false)
    (hbc : ∀ k ∈ keysOf c, hasKey b k = false) :
    merge_content_creator_info (merge_content_creator_info a b) c =
      merge_content_creator_info a (merge_content_creator_info b c) := by
  have hMab : merge_content_creator_info a b = a ++ b :=
    mergeInto_of_fresh b a hb hab
  have hMbc : merge_content_creator_info b c = b ++ c :=
    mergeInto_of_fresh c b hc hbc
  rw [hMab, hMbc]
  have h1 : merge_content_creator_info (a ++ b) c = (a ++ b) ++ c := by
    refine mergeInto_of_fresh c (a ++ b) hc ?_
    intro k hk
    rw [hasKey_append, hac k hk, hbc k hk]
    rfl
  have h2 : merge_content_creator_info a (b ++ c) = a ++ (b ++ c) := by
    refine mergeInto_of_fresh (b ++ c) a ?_ ?_
    · have hdisj : (keysOf b).Disjoint (keysOf c) := by
        intro k hkb hkc
        exact ((hasKey_eq_false_iff b k).mp (hbc k hkc)) hkb
      have : keysOf (b ++ c) = keysOf b ++ keysOf c := by
        simp [keysOf]
      rw [this]
      exact hb.append hc hdisj
    · intro k hk
      have : keysOf (b ++ c) = keysOf b ++ keysOf c := by
        simp [keysOf]
      rw [this, List.mem_append] at hk
      rcases hk with hk | hk
      · exact hab k hk
      · exact hac k hk
  rw [h1, h2, List.append_assoc]

/-- Witness for C6 at three concrete single-key dicts with distinct keys. -/
theorem merge_assoc_disjoint_witness :
    merge_content_creator_info
        (merge_content_creator_info [("a", Val.vint 1)] [("b", Val.vint 2)])
        [("c", Val.vint 3)] =
      merge_content_creator_info [("a", Val.vint 1)]
        (merge_content_creator_info [("b", Val.vint 2)] [("c", Val.vint 3)]) :=
  merge_assoc_disjoint [("a", Val.vint 1)] [("b", Val.vint 2)]
    [("c", Val.vint 3)] (by decide) (by decide) (by decide) (by decide)
    (by decide)

theorem getKey_cons (k0 : String) (v0 : Val) (es : List (String × Val))
    (k : String) :
    getKey ((k0, v0) :: es) k = if k0 = k then some v0 else getKey es k := by
  by_cases h : k0 = k <;> simp [getKey, List.find?_cons, h]

theorem setKey_cons (ek : String) (ev : Val) (rest : List (String × Val))
    (k : String) (v : Val) :
    setKey ((ek, ev) :: rest) k v =
      (if ek = k then (k, v) else (ek, ev)) :: setKey rest k v := rfl

theorem getKey_append_single_ne (b : List (String × Val)) (k0 : String)
    (v0 : Val) (k : String) (h : k ≠ k0) :
    getKey (b ++ [(k0, v0)]) k = getKey b k := by
  induction b with
  | nil =>
    rw [List.nil_append, getKey_cons, if_neg (fun hk => h hk.symm)]
  | cons e rest ih =>
    obtain ⟨ek, ev⟩ := e
    rw [List.cons_append, getKey_cons, getKey_cons]
    by_cases he : ek = k
    · rw [if_pos he, if_pos he]
    · rw [if_neg he, if_neg he]
      exact ih

theorem getKey_setKey_self (b : List (String × Val)) (k : String) (v : Val)
    (bv : Val) (h : getKey b k = some bv) :
    getKey (setKey b k v) k = some v := by
  induction b with
  | nil => simp [getKey] at h
  | cons e rest ih =>
    obtain ⟨ek, ev⟩ := e
    rw [getKey_cons] at h
    rw [setKey_cons]
    by_cases he : ek = k
    · rw [if_pos he, getKey_cons, if_pos rfl]
    · rw [if_neg he] at h ⊢
      rw [getKey_cons, if_neg he]
      exact ih h

theorem getKey_setKey_ne (b : List (String × Val)) (k : String) (v : Val)
    (k2 : String) (h : k2 ≠ k) :
    getKey (setKey b k v) k2 = getKey b k2 := by
  induction b with
  | nil => rfl
  | cons e rest ih =>
    obtain ⟨ek, ev⟩ := e
    rw [setKey_cons]
    by_cases he : ek = k
    · rw [if_pos he, getKey_cons, getKey_cons,
        if_neg (fun hk => h hk.symm),
        if_neg (fun hk => h (he.symm.trans hk).symm)]
      exact ih
    · rw [if_neg he, getKey_cons, getKey_cons]
      by_cases he2 : ek = k2
      · rw [if_pos he2, if_pos he2]
      · rw [if_neg he2, if_neg he2]
        exact ih

theorem getKey_mergeInto_of_none (u : List (String × Val))
    (b : List (String × Val)) (k : String) (h : getKey u k = none) :
    getKey (mergeInto b u) k = getKey b k := by
  induction u generalizing b with
  | nil => rfl
  | cons kv rest ih =>
    obtain ⟨k0, v0⟩ := kv
    rw [getKey_cons] at h
    by_cases hk : k0 = k
    · simp [hk] at h
    · simp only [if_neg hk] at h
      rw [mergeInto]
      cases hb : getKey b k0 with
      | some bv =>
        rw [ih _ h, getKey_setKey_ne _ _ _ _ (fun hkk => hk hkk.symm)]
      | none =>
        rw [ih _ h, getKey_append_single_ne _ _ _ _ (fun hkk => hk hkk.symm)]

theorem getKey_mergeInto_of_both (u : List (String × Val))
    (b : List (String × Val)) (k : String) (uv bv : Val)
    (hnd : (keysOf u).Nodup) (hu : getKey u k = some uv)
    (hb : getKey b k = some bv) :
    getKey (mergeInto b u) k = some (recursive_merge bv uv) := by
  induction u generalizing b bv with
  | nil => simp [getKey] at hu
  | cons kv rest ih =>
    obtain ⟨k0, v0⟩ := kv
    simp only [keysOf, List.map_cons, List.nodup_cons] at hnd
    rw [getKey_cons] at hu
    by_cases hk : k0 = k
    · subst hk
      rw [if_pos rfl] at hu
      injection hu with hu
      subst hu
      have hrest : getKey rest k0 = none := by
        rw [getKey_of_not_has]
        rw [hasKey_eq_false_iff]
        exact hnd.1
      rw [mergeInto, hb, getKey_mergeInto_of_none _ _ _ hrest]
      exact getKey_setKey_self _ _ _ _ hb
    · simp only [if_neg hk] at hu
      rw [mergeInto]
      cases hb0 : getKey b k0 with
      | some bv0 =>
        refine ih _ _ hnd.2 hu ?_
        rw [getKey_setKey_ne _ _ _ _ (fun hkk => hk hkk.symm)]
        exact hb
      | none =>
        refine ih _ _ hnd.2 hu ?_
        rw [getKey_append_single_ne _ _ _ _ (fun hkk => hk hkk.symm)]
        exact hb

/-- C5: when a key holds an ordered sequence in both inputs, the merged value
at that key is `base`'s sequence followed by `update`'s, with no
deduplication; in particular the two spec examples evaluate as stated and
differ, so the merge is not commutative. -/
theorem merge_concatenates_sequences :
    (∀ (b u : List (String × Val)) (k : String) (xs ys : List Val),
        (keysOf u).Nodup →
        getKey b k = some (Val.vlist xs) →
        getKey u k = some (Val.vlist ys) →
        getKey (merge_content_creator_info b u) k =
          some (Val.vlist (xs ++ ys))) ∧
      merge_content_creator_info [("x", Val.vlist [Val.vint 1])]
          [("x", Val.vlist [Val.vint 2])]
        = [("x", Val.vlist [Val.vint 1, Val.vint 2])] ∧
      merge_content_creator_info [("x", Val.vlist [Val.vint 2])]
          [("x", Val.vlist [Val.vint 1])]
        = [("x", Val.vlist [Val.vint 2, Val.vint 1])] ∧
      merge_content_creator_info [("x", Val.vlist [Val.vint 1])]
          [("x", Val.vlist [Val.vint 2])]
        ≠ merge_content_creator_info [("x", Val.vlist [Val.vint 2])]
          [("x", Val.vlist [Val.vint 1])] := by
  refine ⟨?_, rfl, rfl, ?_⟩
  · intro b u k xs ys hnd hb hu
    have := getKey_mergeInto_of_both u b k (Val.vlist ys) (Val.vlist xs) hnd hu hb
    rw [merge_content_creator_info, this, recursive_merge]
  · intro h
    rw [show merge_content_creator_info [("x", Val.vlist [Val.vint 1])]
          [("x", Val.vlist [Val.vint 2])]
        = [("x", Val.vlist [Val.vint 1, Val.vint 2])] from rfl,
      show merge_content_creator_info [("x", Val.vlist [Val.vint 2])]
          [("x", Val.vlist [Val.vint 1])]
        = [("x", Val.vlist [Val.vint 2, Val.vint 1])] from rfl] at h
    simp at h

/-- Witness for C5's general conjunct at the spec's own example. -/
theorem merge_concatenates_sequences_witness :
    getKey (merge_content_creator_info [("x", Val.vlist [Val.vint 1])]
        [("x", Val.vlist [Val.vint 2])]) "x"
      = some (Val.vlist [Val.vint 1, Val.vint 2]) :=
  merge_concatenates_sequences.1 [("x", Val.vlist [Val.vint 1])]
    [("x", Val.vlist [Val.vint 2])] "x" [Val.vint 1] [Val.vint 2]
    (by decide) rfl rfl

/-!
## Analysis-engine theorems
-/

/-- C7: with an empty (or absent) businesses list, `_analyze_business` takes
the guarded branch — `... if businesses else 0` — so `average_revenue` is
exactly 0 and no division is attempted. -/
theorem average_revenue_empty_zero (data : CreatorData)
    (h : data.businesses.getD [] = []) :
    analyze_business data = Except.ok ⟨0, 0, 0⟩ := by
  simp [analyze_business, h, Except.map]

/-- Witness for C7: a record whose `businesses` key holds the empty list. -/
theorem average_revenue_empty_zero_witness :
    analyze_business ⟨none, some []⟩ = Except.ok ⟨0, 0, 0⟩ :=
  average_revenue_empty_zero ⟨none, some []⟩ rfl

theorem sum_ones_filter {α : Type} (p : α → Bool) (l : List α) :
    ((l.filter p).map (fun _ => (1 : Nat))).sum = l.countP p := by
  induction l with
  | nil => rfl
  | cons x xs _ =>
    by_cases hx : p x <;>
      simp [List.filter_cons, List.countP_cons, hx,
        List.countP_eq_length_filter]
    omega

/-- C3 counterexample: a business entry whose `status` is `"active"` but which
has no `is_active` key is *not* counted — the code reads
`b.get("is_active", False)`, never `status` — so `active_businesses` is 0
where the claim's status-based count is 1. -/
theorem active_businesses_ignores_status :
    analyze_business ⟨none, some [⟨none, some 5, some "active"⟩]⟩
        = Except.ok ⟨1, 0, 5⟩ ∧
      ([(⟨none, some 5, some "active"⟩ : BusinessEntry)].countP
          (fun b => b.status.getD "active" = "active")) = 1 ∧
      (0 : Nat) ≠ 1 := by
  refine ⟨?_, by decide, by decide⟩
  simp [analyze_business, pyDiv, Except.map]

/-- C3 amended: business analysis always returns (no division error), with
`total_businesses` the list length and `active_businesses` the number of
entries whose `is_active` key is present and true (`b.get("is_active",
False)`); the `status` field plays no part. -/
theorem active_businesses_counts_is_active (data : CreatorData) :
    ∃ r, analyze_business data = Except.ok r ∧
      r.active_businesses =
        (data.businesses.getD []).countP (fun b => b.is_active.getD false) ∧
      r.total_businesses = (data.businesses.getD []).length := by
  rcases hb : data.businesses.getD [] with _ | ⟨b0, bs⟩
  · exact ⟨⟨0, 0, 0⟩, by simp [analyze_business, hb, Except.map],
      by simp [hb], by simp [hb]⟩
  · have hpos : (0 : Rat) < (bs.length : Rat) + 1 := by positivity
    refine ⟨⟨(b0 :: bs).length,
      (b0 :: bs).countP (fun b => b.is_active.getD false),
      ((b0 :: bs).map (fun b => b.revenue.getD 0)).sum /
        ((b0 :: bs).length : Rat)⟩, ?_, by simp [hb], by simp [hb]⟩
    simp [analyze_business, hb, pyDiv, hpos.ne', Except.map,
      List.countP_eq_length_filter]

/-- C1: the milestone-frequency divisor `current_year - events[0]["year"]` has
no zero guard, so a single life event dated the current year raises
`ZeroDivisionError` instead of reporting a frequency equal to the event
count. -/
theorem analyze_timelines_division_bug :
    analyze_timelines 2026 ⟨some [⟨some 2026⟩], none⟩
      = Except.error "ZeroDivisionError" := by
  simp [analyze_timelines, sortByKey, insertByKey, pyDiv, Except.map]

/-- C2: the merge takes only a *shallow* copy of `source1`, so the nested dict
of `source1 = {"a": {"b": 1}}` (heap address 1) is mutated in place when
merged with `source2 = {"a": {"c": 2}}`: before the call it is
`{"b": 1}`, afterwards `{"b": 1, "c": 2}`. -/
theorem merge_mutates_source1_nested_dict :
    heapGet exampleHeap 1 = some [("b", HVal.hint 1)] ∧
      (mergeHeap 10 0 2 exampleHeap).map (fun p => heapGet p.2 1)
        = some (some [("b", HVal.hint 1), ("c", HVal.hint 2)]) ∧
      ([("b", HVal.hint 1)] : List (String × HVal))
        ≠ [("b", HVal.hint 1), ("c", HVal.hint 2)] := by
  refine ⟨rfl, rfl, ?_⟩
  simp

/-!
## Schema-layer theorems
-/

/-- C8: with the other fields within their constraints, `ChallengeObject`
construction fails with a `ValidationError` on the `year` field exactly when
the year lies outside `[2005, current_year]`, and succeeds otherwise. -/
theorem challenge_year_range (currentYear year : Int)
    (description learnings : String) (duration : Option Int)
    (hdesc : 10 ≤ description.length ∧ description.length ≤ 200)
    (hlearn : 10 ≤ learnings.length ∧ learnings.length ≤ 500)
    (hdur : ∀ d, duration = some d → 1 ≤ d ∧ d ≤ 120) :
    (¬ (2005 ≤ year ∧ year ≤ currentYear) →
      mkChallengeObject currentYear description year learnings duration
        = Except.error "ValidationError: year") ∧
    ((2005 ≤ year ∧ year ≤ currentYear) →
      mkChallengeObject currentYear description year learnings duration
        = Except.ok ⟨description, year, learnings, duration⟩) := by
  constructor
  · intro hy
    rw [mkChallengeObject.eq_def, if_neg (not_not_intro hdesc), if_pos hy]
  · intro hy
    rw [mkChallengeObject.eq_def, if_neg (not_not_intro hdesc),
      if_neg (not_not_intro hy), if_neg (not_not_intro hlearn)]
    cases duration with
    | none => rfl
    | some d =>
      show (if ¬ (1 ≤ d ∧ d ≤ 120) then
          (Except.error "ValidationError: duration" : Except String ChallengeObject)
        else Except.ok (ChallengeObject.mk description year learnings (some d)))
        = Except.ok (ChallengeObject.mk description year learnings (some d))
      rw [if_neg (not_not_intro (hdur d rfl))]

/-- Witness for C8: one rejected year (2004) and one accepted year (2010). -/
theorem challenge_year_range_witness :
    mkChallengeObject 2026 "a challenge description" 2004
        "lesson learned a lot" none = Except.error "ValidationError: year" ∧
      mkChallengeObject 2026 "a challenge description" 2010
        "lesson learned a lot" none
        = Except.ok ⟨"a challenge description", 2010,
            "lesson learned a lot", none⟩ :=
  ⟨(challenge_year_range 2026 2004 "a challenge description"
      "lesson learned a lot" none (by decide) (by decide)
      (fun d h => nomatch h)).1 (by decide),
    (challenge_year_range 2026 2010 "a challenge description"
      "lesson learned a lot" none (by decide) (by decide)
      (fun d h => nomatch h)).2 (by decide)⟩

/-!
## Sorting lemmas for the timeline analysis
-/

theorem mem_insertByKey {α : Type} (key : α → Int) (x a : α) (l : List α) :
    a ∈ insertByKey key x l ↔ a = x ∨ a ∈ l := by
  induction l with
  | nil => simp [insertByKey]
  | cons y ys ih =>
    by_cases h : key x ≤ key y
    · simp [insertByKey, h]
    · simp [insertByKey, h, ih]
      tauto

theorem mem_sortByKey {α : Type} (key : α → Int) (a : α) (l : List α) :
    a ∈ sortByKey key l ↔ a ∈ l := by
  induction l with
  | nil => simp [sortByKey]
  | cons y ys ih => simp [sortByKey, mem_insertByKey, ih]

theorem length_insertByKey {α : Type} (key : α → Int) (x : α) (l : List α) :
    (insertByKey key x l).length = l.length + 1 := by
  induction l with
  | nil => rfl
  | cons y ys ih =>
    by_cases h : key x ≤ key y <;> simp [insertByKey, h, ih]

theorem length_sortByKey {α : Type} (key : α → Int) (l : List α) :
    (sortByKey key l).length = l.length := by
  induction l with
  | nil => rfl
  | cons y ys ih => simp [sortByKey, length_insertByKey, ih]

theorem sorted_insertByKey {α : Type} (key : α → Int) (x : α) (l : List α)
    (h : l.Sorted (fun a b => key a ≤ key b)) :
    (insertByKey key x l).Sorted (fun a b => key a ≤ key b) := by
  induction l with
  | nil => simp [insertByKey]
  | cons y ys ih =>
    rw [List.sorted_cons] at h
    by_cases hxy : key x ≤ key y
    · rw [insertByKey, if_pos hxy, List.sorted_cons]
      refine ⟨?_, List.sorted_cons.mpr h⟩
      intro b hb
      rcases List.mem_cons.mp hb with rfl | hb
      · exact hxy
      · exact le_trans hxy (h.1 b hb)
    · rw [insertByKey, if_neg hxy, List.sorted_cons]
      refine ⟨?_, ih h.2⟩
      intro b hb
      rcases (mem_insertByKey key x b ys).mp hb with rfl | hb
      · exact le_of_not_le hxy
      · exact h.1 b hb

theorem sorted_sortByKey {α : Type} (key : α → Int) (l : List α) :
    (sortByKey key l).Sorted (fun a b => key a ≤ key b) := by
  induction l with
  | nil => simp [sortByKey]
  | cons y ys ih => exact sorted_insertByKey key y _ ih

/-- C9 counterexample: a record whose life events all carry a year can still
have `career_start` go unreported — with every event dated the current year
the unguarded frequency division raises `ZeroDivisionError`, so the analysis
dict (including `career_start`) is never produced. -/
theorem career_start_unreported_at_boundary :
    analyze_timelines 2026 ⟨some [⟨some 2026⟩, ⟨some 2026⟩], none⟩
      = Except.error "ZeroDivisionError" := by
  simp [analyze_timelines, sortByKey, insertByKey, pyDiv, Except.map]

/-- C9 amended: when the life-events list is empty `career_start` is null; and
when it is non-empty, all events carry a year, and the minimum year `m`
differs from the current year (otherwise the `ZeroDivisionError` of the
unguarded division prevents any report), the analysis returns with
`career_start = m` — characterised order-independently as a year of some event
that is a lower bound of all the events' years. -/
theorem career_start_is_min_year (currentYear : Int) (data : CreatorData) :
    (data.life_events.getD [] = [] →
      analyze_timelines currentYear data = Except.ok ⟨none, 0⟩) ∧
    (∀ m : Int,
      (∃ e ∈ data.life_events.getD [], e.year = some m) →
      (∀ e ∈ data.life_events.getD [], ∀ y, e.year = some y → m ≤ y) →
      (∀ e ∈ data.life_events.getD [], (e.year).isSome) →
      m ≠ currentYear →
      ∃ freq, analyze_timelines currentYear data
        = Except.ok ⟨some m, freq⟩) := by
  constructor
  · intro h
    simp [analyze_timelines, h, sortByKey]
  · intro m hmem hlb hall hne
    obtain ⟨em, hem, hyem⟩ := hmem
    cases hs : sortByKey (fun x => x.year.getD 0) (data.life_events.getD []) with
    | nil =>
      exfalso
      have h0 := length_sortByKey (fun x : LifeEventEntry => x.year.getD 0)
        (data.life_events.getD [])
      rw [hs] at h0
      exact List.ne_nil_of_mem hem (List.length_eq_zero.mp h0.symm)
    | cons e0 rest =>
      have he0 : e0 ∈ data.life_events.getD [] :=
        (mem_sortByKey _ e0 _).mp (hs ▸ List.mem_cons_self e0 rest)
      obtain ⟨y0, hy0⟩ : ∃ y0, e0.year = some y0 :=
        Option.isSome_iff_exists.mp (hall e0 he0)
      have h1 : m ≤ y0 := hlb e0 he0 y0 hy0
      have h2 : y0 ≤ m := by
        have hmem2 : em ∈ e0 :: rest := hs ▸ (mem_sortByKey _ em _).mpr hem
        have hsorted := sorted_sortByKey
          (fun x : LifeEventEntry => x.year.getD 0) (data.life_events.getD [])
        rw [hs, List.sorted_cons] at hsorted
        rcases List.mem_cons.mp hmem2 with rfl | hm
        · rw [hyem] at hy0
          injection hy0 with h
          omega
        · have hle := hsorted.1 em hm
          simp only [hy0, hyem, Option.getD_some] at hle
          exact hle
      have hy0m : y0 = m := le_antisymm h2 h1
      subst hy0m
      have hdvd : ((currentYear : Rat) - (y0 : Rat)) ≠ 0 := by
        intro h0
        exact hne (by exact_mod_cast (sub_eq_zero.mp h0).symm)
      refine ⟨((e0 :: rest).length : Rat) /
        ((currentYear : Rat) - (y0 : Rat)), ?_⟩
      simp [analyze_timelines, hs, hy0, pyDiv, hdvd, Except.map]

/-- Witness for C9's amended statement at the spec's own unsorted example. -/
theorem career_start_is_min_year_witness :
    ∃ freq, analyze_timelines 2026
        ⟨some [⟨some 2020⟩, ⟨some 2018⟩, ⟨some 2019⟩], none⟩
      = Except.ok ⟨some 2018, freq⟩ :=
  (career_start_is_min_year 2026
      ⟨some [⟨some 2020⟩, ⟨some 2018⟩, ⟨some 2019⟩], none⟩).2 2018
    (by decide)
    (by
      intro e he y hy
      fin_cases he <;> simp_all <;> omega)
    (by decide) (by decide)

/-- C10: whenever the year-minimal (first sorted) life event lacks a `year`
key, the analysis raises a lookup error: the missing-year default `0` is used
only inside the sort key, while `events[0]["year"]` is a plain subscript. -/
theorem missing_year_keyerror (currentYear : Int) (data : CreatorData)
    (e0 : LifeEventEntry) (rest : List LifeEventEntry)
    (hs : sortByKey (fun x => x.year.getD 0) (data.life_events.getD [])
      = e0 :: rest)
    (hy : e0.year = none) :
    analyze_timelines currentYear data = Except.error "KeyError: year" := by
  simp [analyze_timelines, hs, hy]

/-- Witness for C10: a single life event with no `year` key. -/
theorem missing_year_keyerror_witness :
    analyze_timelines 2026 ⟨some [⟨none⟩], none⟩
      = Except.error "KeyError: year" :=
  missing_year_keyerror 2026 ⟨some [⟨none⟩], none⟩ ⟨none⟩ [] rfl rfl

end YTAgent
